import Mathlib

/-!
Verification of the claude-rlm orchestration core.

A shallow embedding, in Lean 4, of the parts of the claude-rlm repository
that the verified properties concern:

* the result parser and the textual termination check
  (`src/claude_rlm/orchestrator/result_parser.py`,
  `src/claude_rlm/orchestrator/query_loop.py`, and the v1 `claude_rlm.py`),
* the code-block extractor (`src/claude_rlm/engine/code_extractor.py`),
* the output truncation rule (`MAX_OUTPUT_CHARS`),
* the sandboxed code-block execution harness
  (`ClaudeRLM._safe_run` / `ClaudeRLM._execute_code_blocks`),
* the retry wrapper (`AnthropicClient._call_with_retry` /
  `ClaudeRLM._api_call_with_retry`),
* the IPC callback server handler (`src/claude_rlm/engine/ipc.py`).

Text is modelled as `List Char` (one entry per Unicode code point, matching
Python `str` semantics for indexing, slicing and `len`).  Python byte
strings on the IPC wire are modelled as `List Nat` with one entry per octet.
-/

namespace RLM

/-! ## Character classes and literal matching

The regular expressions in `result_parser.py` / `claude_rlm.py` are compiled
with `re.DOTALL | re.IGNORECASE`.  We model `\s` and `\w` over their ASCII
ranges (the only ones the repository feeds them), and `re.IGNORECASE` as
ASCII case folding, which is exact for the ASCII-only pattern literals used.
-/

/-- Python `\s` over the ASCII range: space, tab, newline, carriage return,
vertical tab, form feed. -/
def isPySpace (c : Char) : Bool :=
  c = ' ' || c = '\t' || c = '\n' || c = '\x0d' || c = '\x0b' || c = '\x0c'

/-- Python `\w` over the ASCII range: letters, digits, underscore. -/
def isWordChar (c : Char) : Bool :=
  c.isAlpha || c.isDigit || c = '_'

/-- ASCII lower-casing, used to model `re.IGNORECASE` for ASCII pattern
literals. -/
def asciiLower (c : Char) : Char :=
  if 'A' ≤ c ∧ c ≤ 'Z' then Char.ofNat (c.toNat + 32) else c

/-- Match the literal `pat` exactly (case-sensitively) at the head of `s`,
returning the remainder on success. -/
def matchLit : List Char → List Char → Option (List Char)
  | [], s => some s
  | _ :: _, [] => none
  | p :: ps, c :: cs => if p = c then matchLit ps cs else none

/-- Match the literal `pat` case-insensitively (ASCII folding) at the head
of `s`, returning the remainder on success. -/
def matchCI : List Char → List Char → Option (List Char)
  | [], s => some s
  | _ :: _, [] => none
  | p :: ps, c :: cs => if asciiLower p = asciiLower c then matchCI ps cs else none

/-- Python `pat in s` substring containment (case-sensitive), as used by the
orchestrator loop check `"FINAL_ANSWER:" in response`. -/
def containsSubstr (pat : List Char) : List Char → Bool
  | [] => (matchLit pat []).isSome
  | c :: rest => (matchLit pat (c :: rest)).isSome || containsSubstr pat rest

/-- Python `str.strip()` restricted to the ASCII whitespace it removes here. -/
def pyStrip (l : List Char) : List Char :=
  ((l.dropWhile isPySpace).reverse.dropWhile isPySpace).reverse

/-! ## Backtracking pieces of the specific regular expressions

Each pattern of the source is translated into its own matching function with
Python `re` backtracking semantics: a greedy `\s*` tries the longest
whitespace run first and backtracks; a lazy `(.+?)` / `(.*?)` tries the
shortest capture first and extends; the engine tries start positions left to
right (`re.search` / `re.findall`).
-/

/-- Greedy `\s*` with backtracking: run the continuation `k` at the position
after the longest whitespace run first, then at ever shorter runs. -/
def tryBacktrackWs (k : List Char → Option α) : List Char → Option α
  | [] => k []
  | c :: rest =>
      if isPySpace c then
        (tryBacktrackWs k rest).orElse (fun _ => k (c :: rest))
      else k (c :: rest)

/-- Lazy `(.+?)(?=look)` under `re.DOTALL`: the shortest capture of at least
one character whose following position satisfies the lookahead. -/
def lazyCapture (look : List Char → Bool) : List Char → Option (List Char × List Char)
  | [] => none
  | c :: rest =>
      if look rest then some ([c], rest)
      else
        match lazyCapture look rest with
        | some (cap, suf) => some (c :: cap, suf)
        | none => none

/-- Position where Python `$` matches (without `re.MULTILINE`): the end of
the string, or just before a single trailing newline. -/
def atDollar (s : List Char) : Bool :=
  s.isEmpty || s == ['\n']

/-- Leftmost-match search: try the pattern attempt `tryAt` at each start
position, left to right. -/
def searchPattern (tryAt : List Char → Option α) : List Char → Option α
  | [] => tryAt []
  | c :: rest => (tryAt (c :: rest)).orElse (fun _ => searchPattern tryAt rest)

/-! ## The four field patterns of `parse_final_answer` -/

/-- The literal of the textual termination marker. -/
def finalAnswerLit : List Char := "FINAL_ANSWER:".data

/-- The literal introducing the evidence field. -/
def sourceEvidenceLit : List Char := "SOURCE_EVIDENCE:".data

/-- The literal introducing the confidence field. -/
def confidenceLit : List Char := "CONFIDENCE:".data

/-- The literal introducing the verification field. -/
def verificationLit : List Char := "VERIFICATION_METHOD:".data

/-- Lookahead of the answer pattern:
`(?=SOURCE_EVIDENCE:|CONFIDENCE:|VERIFICATION_METHOD:|$)`. -/
def lookAnswer (s : List Char) : Bool :=
  (matchCI sourceEvidenceLit s).isSome || (matchCI confidenceLit s).isSome ||
    (matchCI verificationLit s).isSome || atDollar s

/-- Lookahead of the evidence pattern: `(?=CONFIDENCE:|VERIFICATION_METHOD:|$)`. -/
def lookEvidence (s : List Char) : Bool :=
  (matchCI confidenceLit s).isSome || (matchCI verificationLit s).isSome || atDollar s

/-- Attempt of `FINAL_ANSWER:\s*(.+?)(?=SOURCE_EVIDENCE:|CONFIDENCE:|VERIFICATION_METHOD:|$)`
at one start position. -/
def tryAnswerAt (s : List Char) : Option (List Char × List Char) :=
  (matchCI finalAnswerLit s).bind (tryBacktrackWs (lazyCapture lookAnswer))

/-- Attempt of `SOURCE_EVIDENCE:\s*(.+?)(?=CONFIDENCE:|VERIFICATION_METHOD:|$)`
at one start position. -/
def tryEvidenceAt (s : List Char) : Option (List Char × List Char) :=
  (matchCI sourceEvidenceLit s).bind (tryBacktrackWs (lazyCapture lookEvidence))

/-- Greedy `(\w+)`: the maximal nonempty run of word characters. -/
def wordPlus (s : List Char) : Option (List Char × List Char) :=
  let run := s.takeWhile isWordChar
  if run.isEmpty then none else some (run, s.dropWhile isWordChar)

/-- Attempt of `CONFIDENCE:\s*(\w+)` at one start position. -/
def tryConfidenceAt (s : List Char) : Option (List Char × List Char) :=
  (matchCI confidenceLit s).bind (tryBacktrackWs wordPlus)

/-- Attempt of `VERIFICATION_METHOD:\s*(.+?)(?=$)` at one start position. -/
def tryVerificationAt (s : List Char) : Option (List Char × List Char) :=
  (matchCI verificationLit s).bind (tryBacktrackWs (lazyCapture atDollar))

/-- The `re.search` for the answer field, with the `.strip()` applied by the
parser loop. -/
def searchAnswer (s : List Char) : Option (List Char) :=
  (searchPattern tryAnswerAt s).map (fun pr => pyStrip pr.1)

/-- The `re.search` for the evidence field, stripped. -/
def searchEvidence (s : List Char) : Option (List Char) :=
  (searchPattern tryEvidenceAt s).map (fun pr => pyStrip pr.1)

/-- The `re.search` for the confidence field, stripped. -/
def searchConfidence (s : List Char) : Option (List Char) :=
  (searchPattern tryConfidenceAt s).map (fun pr => pyStrip pr.1)

/-- The `re.search` for the verification field, stripped. -/
def searchVerification (s : List Char) : Option (List Char) :=
  (searchPattern tryVerificationAt s).map (fun pr => pyStrip pr.1)

/-- The four structured fields of a parsed final answer.  The numeric
bookkeeping entries of the result dict (token counts, sub-call count,
trajectory) are pass-through arguments in the source and are omitted. -/
structure ParseResult where
  answer : List Char
  evidence : Option (List Char)
  confidence : List Char
  verification : Option (List Char)
deriving DecidableEq, Repr

/-- Embedding of `parse_final_answer` (`result_parser.py`, and the identical
`ClaudeRLM._parse_final_answer`): best-effort field extraction; a missing
field stays unset; if the answer field is missing or strips to the empty
string, the whole response text becomes the answer. -/
def parseFinalAnswer (response : List Char) : ParseResult :=
  let ans := searchAnswer response
  { answer :=
      match ans with
      | some a => if a.isEmpty then response else a
      | none => response
    evidence := searchEvidence response
    confidence := (searchConfidence response).getD "unknown".data
    verification := searchVerification response }

/-! ## Code-block extraction -/

/-- The opening fence literal of the pattern `` ```repl\s*\n(.*?)\n``` ``. -/
def replFenceLit : List Char := "```repl".data

/-- The closing fence literal `\n````. -/
def fenceCloseLit : List Char := "\n```".data

/-- Lazy `(.*?)` followed by the closing fence: shortest (possibly empty)
capture whose suffix starts with `\n````; returns the capture and the
remainder after the closing fence (where `re.findall` resumes). -/
def lazyStarFence : List Char → Option (List Char × List Char)
  | [] => none
  | c :: cs =>
      match matchLit fenceCloseLit (c :: cs) with
      | some rest => some ([], rest)
      | none => (lazyStarFence cs).map (fun pr => (c :: pr.1, pr.2))

/-- Attempt of `` ```repl\s*\n(.*?)\n``` `` at one start position. -/
def tryReplAt (s : List Char) : Option (List Char × List Char) :=
  (matchLit replFenceLit s).bind (tryBacktrackWs (fun r =>
    match r with
    | '\n' :: r2 => lazyStarFence r2
    | _ => none))

/-- Non-overlapping left-to-right scan of `re.findall`.  The fuel only bounds
the recursion; a successful match always consumes at least one character, so
`length + 1` fuel (as supplied by `extractReplBlocks`) is never exhausted. -/
def extractAux : Nat → List Char → List (List Char)
  | 0, _ => []
  | _ + 1, [] => []
  | fuel + 1, c :: rest =>
      match tryReplAt (c :: rest) with
      | some (cap, rem) => cap :: extractAux fuel rem
      | none => extractAux fuel rest

/-- Embedding of `extract_repl_blocks` (`code_extractor.py`), identical to the
inline pattern in `ClaudeRLM._execute_code_blocks`:
`re.findall(r"```repl\s*\n(.*?)\n```", response, re.DOTALL)`. -/
def extractReplBlocks (s : List Char) : List (List Char) :=
  extractAux (s.length + 1) s

/-! ## Output truncation -/

/-- The configured maximum of characters of REPL output fed back per
iteration (`MAX_OUTPUT_CHARS` in `constants.py` and `claude_rlm.py`). -/
def maxOutputChars : Nat := 20000

/-- Digit grouping of Python `{n:,}` formatting, on a reversed digit list. -/
def commaChunkRev : List Char → List Char
  | [] => []
  | [a] => [a]
  | [a, b] => [a, b]
  | [a, b, c] => [a, b, c]
  | a :: b :: c :: d :: rest => a :: b :: c :: ',' :: commaChunkRev (d :: rest)

/-- Python `{n:,}`: decimal digits with a comma every three, from the right. -/
def fmtComma (n : Nat) : List Char :=
  (commaChunkRev (Nat.toDigits 10 n).reverse).reverse

/-- The truncation notice appended when output exceeds the maximum:
`f"\n... [OUTPUT TRUNCATED: {len:,} chars total, showing first {MAX:,}]"`. -/
def truncNotice (n : Nat) : List Char :=
  "\n... [OUTPUT TRUNCATED: ".data ++ fmtComma n ++
    " chars total, showing first ".data ++ fmtComma maxOutputChars ++ "]".data

/-- Embedding of the truncation step of `QueryOrchestrator.run` /
`ClaudeRLM.query`: `truncated = code_output[:MAX_OUTPUT_CHARS]`, and the
notice is appended exactly when the output is longer than the maximum. -/
def truncateOutput (out : List Char) : List Char :=
  let truncated := out.take maxOutputChars
  if maxOutputChars < out.length then truncated ++ truncNotice out.length
  else truncated

/-! ## The per-iteration decision of the orchestrator loop -/

/-- The branch the query loop takes for one model response.  Mirrors the
control flow of `QueryOrchestrator.run` / `ClaudeRLM.query`: the textual
marker check runs first; otherwise blocks are extracted and either executed
or the fixed no-code feedback is appended. -/
inductive IterStep where
  | textTerminate (parsed : ParseResult)
  | runBlocks (blocks : List (List Char))
  | noCodeFeedback
deriving DecidableEq, Repr

/-- Embedding of the per-iteration branch order of the loop body:
`if "FINAL_ANSWER:" in response: return parse_final_answer(response)`,
else extract ```repl blocks and execute them when there are any. -/
def queryIterationStep (response : List Char) : IterStep :=
  if containsSubstr finalAnswerLit response then
    IterStep.textTerminate (parseFinalAnswer response)
  else
    match extractReplBlocks response with
    | [] => IterStep.noCodeFeedback
    | b :: bs => IterStep.runBlocks (b :: bs)

/-- The code blocks an iteration hands to the sandbox: none unless the
`runBlocks` branch is taken. -/
def executedBlocks : IterStep → List (List Char)
  | IterStep.runBlocks bs => bs
  | _ => []

/-! ## The sandboxed execution harness

`ClaudeRLM._safe_run` wraps each code block into a generated Python script
that loads `context`, `buffers` and `findings` from temp files, defines
`sub_query` / `SHOW_VARS` / `FINAL` / `FINAL_VAR`, runs the block inside
`try: ... except _RLMTermination:`, and writes the state back.  The Python
interpreter itself cannot be embedded; model-written block code is modelled
by a small statement language over the exact API surface the wrapper
injects.  The harness semantics (fresh interpreter per `_safe_run` call,
termination by a distinguished exception, state write-back placement, the
errors-become-output rule, and the per-block loop of
`_execute_code_blocks`) are translated from the source.
-/

/-- An apostrophe character, as produced by Python `repr` in error texts. -/
def sq : Char := Char.ofNat 39

/-- A one-character string holding an apostrophe. -/
def sqs : String := String.mk [sq]

/-- Expressions of model-written code: a string literal, a plain variable
read, or a `buffers[k]` read. -/
inductive Expr where
  | lit (v : String)
  | var (x : String)
  | bufGet (k : String)
deriving DecidableEq, Repr

/-- Statements of model-written code, covering the API surface the wrapper
injects: plain assignment, `print`, `buffers[k] = v`, `findings.append(v)`,
`FINAL(e)` and `FINAL_VAR(name)`. -/
inductive Stmt where
  | assign (x : String) (e : Expr)
  | printE (e : Expr)
  | bufSet (k : String) (e : Expr)
  | findAppend (e : Expr)
  | final (e : Expr)
  | finalVar (x : String)
deriving DecidableEq, Repr

/-- The serialized shared state round-tripped through the state temp file:
`{"buffers": ..., "findings": ...}`.  Buffer values are modelled as strings
(the file is written with `json.dump(..., default=str)`). -/
structure SState where
  buffers : List (String × String)
  findings : List String
deriving DecidableEq, Repr

/-- The final message line of the Python exception a failed lookup raises
(`NameError`), standing for the traceback text on stderr. -/
def nameErrorMsg (x : String) : String :=
  "NameError: name " ++ sqs ++ x ++ sqs ++ " is not defined"

/-- The final message line of a failed `buffers[k]` lookup (`KeyError`). -/
def keyErrorMsg (k : String) : String :=
  "KeyError: " ++ sqs ++ k ++ sqs

/-- The termination answer `FINAL_VAR` produces for an unresolved name:
`f"ERROR: Variable {var_name!r} not found"`. -/
def varNotFoundMsg (x : String) : String :=
  "ERROR: Variable " ++ sqs ++ x ++ sqs ++ " not found"

/-- Expression evaluation inside one interpreter instance: `env` holds the
plain variables the block defined, `st` the deserialized shared state. -/
def evalExpr (env : List (String × String)) (st : SState) : Expr → Except String String
  | Expr.lit v => Except.ok v
  | Expr.var x =>
      match env.lookup x with
      | some v => Except.ok v
      | none => Except.error (nameErrorMsg x)
  | Expr.bufGet k =>
      match st.buffers.lookup k with
      | some v => Except.ok v
      | none => Except.error (keyErrorMsg k)

/-- How a statement sequence ends: fell through, the `_RLMTermination`
signal raised by `FINAL` / `FINAL_VAR`, or an ordinary Python exception. -/
inductive Control where
  | next
  | term (ans : String)
  | exc (msg : String)
deriving DecidableEq, Repr

/-- Whether a control outcome is an ordinary exception. -/
def Control.isExc : Control → Bool
  | Control.exc _ => true
  | _ => false

/-- The result of running a statement list: the variables defined, the
updated shared state, the stdout lines printed, and how it ended. -/
structure ExecState where
  env : List (String × String)
  st : SState
  out : List String
  control : Control
deriving DecidableEq, Repr

/-- Sequential execution of model-written statements in one interpreter
instance.  `FINAL(e)` evaluates its argument, then raises the termination
signal; `FINAL_VAR` resolves the name against the defined variables and
terminates either way (an unresolved name yields the not-found answer, a
valid termination).  Any other exception stops execution with `exc`. -/
def runStmts : List Stmt → List (String × String) → SState → ExecState
  | [], env, st => ⟨env, st, [], Control.next⟩
  | s :: rest, env, st =>
      match s with
      | Stmt.assign x e =>
          match evalExpr env st e with
          | Except.ok v => runStmts rest ((x, v) :: env) st
          | Except.error m => ⟨env, st, [], Control.exc m⟩
      | Stmt.printE e =>
          match evalExpr env st e with
          | Except.ok v =>
              let r := runStmts rest env st
              ⟨r.env, r.st, v :: r.out, r.control⟩
          | Except.error m => ⟨env, st, [], Control.exc m⟩
      | Stmt.bufSet k e =>
          match evalExpr env st e with
          | Except.ok v => runStmts rest env { st with buffers := (k, v) :: st.buffers }
          | Except.error m => ⟨env, st, [], Control.exc m⟩
      | Stmt.findAppend e =>
          match evalExpr env st e with
          | Except.ok v => runStmts rest env { st with findings := st.findings ++ [v] }
          | Except.error m => ⟨env, st, [], Control.exc m⟩
      | Stmt.final e =>
          match evalExpr env st e with
          | Except.ok v => ⟨env, st, [], Control.term v⟩
          | Except.error m => ⟨env, st, [], Control.exc m⟩
      | Stmt.finalVar x =>
          match env.lookup x with
          | some v => ⟨env, st, [], Control.term v⟩
          | none => ⟨env, st, [], Control.term (varNotFoundMsg x)⟩

/-- What `_safe_run` returns to the loop for one block, and the state the
parent reads back from the state file. -/
structure BlockResult where
  output : List String
  terminated : Bool
  finalAnswer : Option String
  state : SState
deriving DecidableEq, Repr

/-- Embedding of `ClaudeRLM._safe_run` on one block: a fresh interpreter
instance (empty variable environment) per call.  On normal completion or on
the termination signal the wrapper writes the state back (mutations made
before the `FINAL` call are kept); on an ordinary exception the wrapper
script dies before the write-back, so the parent re-reads the pre-execution
state, and the stderr text joins the output
(`output_parts.append(f"STDERR: {result.stderr}")`). -/
def safeRun (code : List Stmt) (st : SState) : BlockResult :=
  let r := runStmts code [] st
  match r.control with
  | Control.next => ⟨r.out, false, none, r.st⟩
  | Control.term a => ⟨r.out, true, some a, r.st⟩
  | Control.exc m => ⟨r.out ++ ["STDERR: " ++ m], false, none, st⟩

/-- The combined result of a batch of blocks, as `_execute_code_blocks`
returns it (the state lives on `self.buffers` / `self.findings` in the
source and is carried explicitly here). -/
structure BatchResult where
  output : List String
  terminated : Bool
  finalAnswer : Option String
  state : SState
deriving DecidableEq, Repr

/-- Embedding of `ClaudeRLM._execute_code_blocks` (the loop of
`QueryOrchestrator._execute_blocks` is the same shape): each block goes
through its own `_safe_run` call; a terminated block returns immediately
with only that run, the dict of which carries only that block; otherwise
nonempty outputs accumulate in order. -/
def executeCodeBlocks : List (List Stmt) → SState → BatchResult
  | [], st => ⟨[], false, none, st⟩
  | b :: bs, st =>
      let r := safeRun b st
      if r.terminated then ⟨r.output, true, r.finalAnswer, r.state⟩
      else
        let rest := executeCodeBlocks bs r.state
        if rest.terminated then rest
        else ⟨r.output ++ rest.output, false, none, rest.state⟩

/-- Companion definition following the words of the spec sentence under
test (refinement comparison, not translated from the source): the blocks of
a batch run in order inside one single fresh interpreter instance, so the
variable environment persists from each block to the next. -/
def executeCodeBlocksSpecSingleInstance (blocks : List (List Stmt)) (st : SState) : BatchResult :=
  let r := safeRun blocks.flatten st
  ⟨r.output, r.terminated, r.finalAnswer, r.state⟩

/-! ## The retry wrapper

`AnthropicClient._call_with_retry` (identical logic in
`ClaudeRLM._api_call_with_retry`) loops `for attempt in range(max_retries)`
around `self._client.messages.create(...)` with two handlers:
`except anthropic.RateLimitError` sleeps `base * 2 ** attempt` and retries;
`except anthropic.APIError` does the same unless
`attempt == max_retries - 1`, in which case it re-raises.  In the anthropic
SDK error hierarchy `RateLimitError`, `BadRequestError`,
`AuthenticationError`, `InternalServerError`, `APIConnectionError` are all
subclasses of `APIError`, so the second handler catches every SDK error
that is not a rate limit, transient or not; exceptions outside the
hierarchy are not caught at all.  The outcome of each underlying call is
modelled by an oracle indexed by attempt number.
-/

/-- What one underlying `messages.create` call does: return a response,
raise `anthropic.RateLimitError`, raise any other `anthropic.APIError`
(bad request, authentication, server error, connection error, ...), or
raise an exception outside the SDK hierarchy. -/
inductive CallOutcome (α ε : Type) where
  | success (resp : α)
  | rateLimit (e : ε)
  | apiError (e : ε)
  | uncaught (e : ε)
deriving DecidableEq, Repr

/-- Outcomes the two `except` clauses catch and (possibly) retry. -/
def retryableFailure : CallOutcome α ε → Bool
  | CallOutcome.rateLimit _ => true
  | CallOutcome.apiError _ => true
  | _ => false

/-- The error carried by a failing outcome. -/
def failErr : CallOutcome α ε → Option ε
  | CallOutcome.success _ => none
  | CallOutcome.rateLimit e => some e
  | CallOutcome.apiError e => some e
  | CallOutcome.uncaught e => some e

/-- The observable behaviour of one `_call_with_retry` invocation: the
returned value or propagated error (`Except.error none` models the
degenerate `raise last_error` with `last_error is None` when
`max_retries == 0`), the number of underlying calls made, and the sequence
of backoff delays slept. -/
structure RetryResult (α ε : Type) where
  result : Except (Option ε) α
  calls : Nat
  delays : List ℚ
deriving Repr

/-- The retry loop from attempt `attempt` with `remaining` attempts left
(`attempt + remaining = max_retries` throughout): translated clause by
clause from `_call_with_retry`. -/
def retryGo (outcomes : Nat → CallOutcome α ε) (base : ℚ) :
    Nat → Nat → Option ε → RetryResult α ε
  | _, 0, lastErr => ⟨Except.error lastErr, 0, []⟩
  | attempt, r + 1, _ =>
      match outcomes attempt with
      | CallOutcome.success a => ⟨Except.ok a, 1, []⟩
      | CallOutcome.rateLimit e =>
          let rest := retryGo outcomes base (attempt + 1) r (some e)
          ⟨rest.result, rest.calls + 1, base * 2 ^ attempt :: rest.delays⟩
      | CallOutcome.apiError e =>
          if r = 0 then ⟨Except.error (some e), 1, []⟩
          else
            let rest := retryGo outcomes base (attempt + 1) r (some e)
            ⟨rest.result, rest.calls + 1, base * 2 ^ attempt :: rest.delays⟩
      | CallOutcome.uncaught e => ⟨Except.error (some e), 1, []⟩

/-- Embedding of `AnthropicClient._call_with_retry` /
`ClaudeRLM._api_call_with_retry` with `max_retries` attempts and base delay
`base`. -/
def callWithRetry (maxRetries : Nat) (base : ℚ) (outcomes : Nat → CallOutcome α ε) :
    RetryResult α ε :=
  retryGo outcomes base 0 maxRetries none

/-! ## The IPC callback server handler

`SubQueryHandler.handle` in `engine/ipc.py` (byte-identical logic in
`ClaudeRLM._start_ipc_server`): read a 4-byte big-endian length prefix
(returning silently if the client closed early), read that many bytes,
`json.loads` them, pull `prompt` (default `""`) and `context_slice`
(default `None`), invoke the callback, and reply with
`json.dumps({"result": ...})` under the same framing; any exception on the
way — the callback raising included — is answered with
`json.dumps({"error": str(e)})`.

The wire is modelled as `List Nat`, one entry per octet; text crosses the
byte boundary through the identification of each character with one wire
unit (`Char.toNat` / `Char.ofNat`), which is exact for ASCII payloads.
`json.loads` is modelled for the request subset the protocol uses: one
object whose values are strings or `null`.  `json.dumps` of the two reply
shapes is modelled with the default separators and `ensure_ascii=True`
escaping.
-/

/-- An opening curly brace character. -/
def lbrace : Char := Char.ofNat 123

/-- A closing curly brace character. -/
def rbrace : Char := Char.ofNat 125

/-- The 4-byte big-endian encoding of `struct.pack("!I", n)`. -/
def beBytes4 (n : Nat) : List Nat :=
  [n / 2 ^ 24 % 256, n / 2 ^ 16 % 256, n / 2 ^ 8 % 256, n % 256]

/-- The value of `struct.unpack("!I", ...)` on a big-endian byte list. -/
def beDecode4 (l : List Nat) : Nat :=
  l.foldl (fun acc b => acc * 256 + b) 0

/-- A length-prefixed frame: `struct.pack("!I", len(body)) + body`. -/
def frameBytes (body : List Nat) : List Nat :=
  beBytes4 body.length ++ body

/-- JSON whitespace accepted between tokens by `json.loads`. -/
def isJsonWs (c : Char) : Bool :=
  c = ' ' || c = '\t' || c = '\n' || c = '\x0d'

/-- Skip JSON whitespace. -/
def skipJsonWs (s : List Char) : List Char :=
  s.dropWhile isJsonWs

/-- A JSON value of the request subset: a string or `null`. -/
inductive JVal where
  | jstr (v : List Char)
  | jnull
deriving DecidableEq, Repr

/-- The numeric value of a hexadecimal digit, if any. -/
def hexVal (c : Char) : Option Nat :=
  if '0' ≤ c ∧ c ≤ '9' then some (c.toNat - 48)
  else if 'a' ≤ c ∧ c ≤ 'f' then some (c.toNat - 87)
  else if 'A' ≤ c ∧ c ≤ 'F' then some (c.toNat - 55)
  else none

/-- Parse the body of a JSON string after the opening quote, handling the
escapes `json.loads` accepts (`\uXXXX` is mapped to one code point; the
surrogate-pair recombination of astral characters is not modelled).
Returns the decoded content and the remainder after the closing quote. -/
def parseStrChars : Nat → List Char → Option (List Char × List Char)
  | 0, _ => none
  | _ + 1, [] => none
  | fuel + 1, c :: rest =>
      if c = '"' then some ([], rest)
      else if c = '\\' then
        match rest with
        | [] => none
        | e :: rest2 =>
            if e = '"' ∨ e = '\\' ∨ e = '/' then
              (parseStrChars fuel rest2).map (fun pr => (e :: pr.1, pr.2))
            else if e = 'b' then
              (parseStrChars fuel rest2).map (fun pr => ('\x08' :: pr.1, pr.2))
            else if e = 'f' then
              (parseStrChars fuel rest2).map (fun pr => ('\x0c' :: pr.1, pr.2))
            else if e = 'n' then
              (parseStrChars fuel rest2).map (fun pr => ('\n' :: pr.1, pr.2))
            else if e = 'r' then
              (parseStrChars fuel rest2).map (fun pr => ('\x0d' :: pr.1, pr.2))
            else if e = 't' then
              (parseStrChars fuel rest2).map (fun pr => ('\t' :: pr.1, pr.2))
            else if e = 'u' then
              match rest2 with
              | h1 :: h2 :: h3 :: h4 :: rest3 =>
                  match hexVal h1, hexVal h2, hexVal h3, hexVal h4 with
                  | some a, some b, some c2, some d =>
                      (parseStrChars fuel rest3).map
                        (fun pr => (Char.ofNat (((a * 16 + b) * 16 + c2) * 16 + d) :: pr.1, pr.2))
                  | _, _, _, _ => none
              | _ => none
            else none
      else if c.toNat < 32 then none
      else (parseStrChars fuel rest).map (fun pr => (c :: pr.1, pr.2))

/-- Parse a JSON value of the request subset after optional whitespace. -/
def parseJVal (s : List Char) : Option (JVal × List Char) :=
  match skipJsonWs s with
  | '"' :: rest => (parseStrChars (rest.length + 1) rest).map (fun pr => (JVal.jstr pr.1, pr.2))
  | 'n' :: 'u' :: 'l' :: 'l' :: rest => some (JVal.jnull, rest)
  | _ => none

/-- Parse the member list of a JSON object, starting at the first key;
returns the pairs and the remainder after the closing brace. -/
def parsePairs : Nat → List Char → Option (List (List Char × JVal) × List Char)
  | 0, _ => none
  | fuel + 1, s =>
      match skipJsonWs s with
      | '"' :: rest =>
          match parseStrChars (rest.length + 1) rest with
          | none => none
          | some (key, rest2) =>
              match skipJsonWs rest2 with
              | ':' :: rest3 =>
                  match parseJVal rest3 with
                  | none => none
                  | some (v, rest4) =>
                      match skipJsonWs rest4 with
                      | ',' :: rest5 =>
                          (parsePairs fuel rest5).map (fun pr => ((key, v) :: pr.1, pr.2))
                      | c :: rest5 =>
                          if c = rbrace then some ([(key, v)], rest5) else none
                      | [] => none
              | _ => none
      | _ => none

/-- Parse one whole JSON object of the request subset (`json.loads` also
requires the input to end after it). -/
def jsonParseObj (s : List Char) : Option (List (List Char × JVal)) :=
  match skipJsonWs s with
  | [] => none
  | c :: rest =>
      if c = lbrace then
        match skipJsonWs rest with
        | d :: rest2 =>
            if d = rbrace then
              if (skipJsonWs rest2).isEmpty then some [] else none
            else
              match parsePairs (rest.length + 1) rest with
              | some (pairs, rem) => if (skipJsonWs rem).isEmpty then some pairs else none
              | none => none
        | [] => none
      else none

/-- Duplicate keys in `json.loads` keep the last occurrence. -/
def lookupLast (k : List Char) (pairs : List (List Char × JVal)) : Option JVal :=
  pairs.reverse.lookup k

/-- The request fields the handler extracts: `request.get("prompt", "")`
and `request.get("context_slice")`.  A request whose `prompt` is present
but `null` falls outside the modelled subset. -/
def decodeRequest (body : List Char) : Option (List Char × Option (List Char)) :=
  (jsonParseObj body).bind (fun pairs =>
    match lookupLast "prompt".data pairs with
    | some JVal.jnull => none
    | some (JVal.jstr p) => some (p, decodeSlice pairs)
    | none => some ([], decodeSlice pairs))
where
  decodeSlice (pairs : List (List Char × JVal)) : Option (List Char) :=
    match lookupLast "context_slice".data pairs with
    | some (JVal.jstr v) => some v
    | _ => none

/-- A hexadecimal digit character, lower case as Python emits it. -/
def hexDigitChar (n : Nat) : Char :=
  if n < 10 then Char.ofNat (48 + n) else Char.ofNat (87 + n)

/-- One `\uXXXX` escape. -/
def uEscape4 (n : Nat) : List Char :=
  ['\\', 'u', hexDigitChar (n / 4096 % 16), hexDigitChar (n / 256 % 16),
    hexDigitChar (n / 16 % 16), hexDigitChar (n % 16)]

/-- The escaping `json.dumps` (with its default `ensure_ascii=True`)
applies to one character: printable ASCII other than quote and backslash
passes through, the five short escapes apply, everything else becomes
`\uXXXX` (a surrogate pair above the basic plane). -/
def pyJsonEscapeChar (c : Char) : List Char :=
  if c = '"' then ['\\', '"']
  else if c = '\\' then ['\\', '\\']
  else if c = '\x08' then ['\\', 'b']
  else if c = '\t' then ['\\', 't']
  else if c = '\n' then ['\\', 'n']
  else if c = '\x0c' then ['\\', 'f']
  else if c = '\x0d' then ['\\', 'r']
  else if 32 ≤ c.toNat ∧ c.toNat ≤ 126 then [c]
  else if c.toNat < 65536 then uEscape4 c.toNat
  else uEscape4 (55296 + (c.toNat - 65536) / 1024) ++ uEscape4 (56320 + (c.toNat - 65536) % 1024)

/-- A JSON string literal as `json.dumps` writes it. -/
def pyJsonQuote (s : List Char) : List Char :=
  '"' :: (s.map pyJsonEscapeChar).flatten ++ ['"']

/-- The reply body `json.dumps({"result": r})`. -/
def jsonDumpsResult (r : List Char) : List Char :=
  lbrace :: '"' :: 'r' :: 'e' :: 's' :: 'u' :: 'l' :: 't' :: '"' :: ':' :: ' ' ::
    (pyJsonQuote r ++ [rbrace])

/-- The reply body `json.dumps({"error": m})`. -/
def jsonDumpsError (m : List Char) : List Char :=
  lbrace :: '"' :: 'e' :: 'r' :: 'r' :: 'o' :: 'r' :: '"' :: ':' :: ' ' ::
    (pyJsonQuote m ++ [rbrace])

/-- Stand-in for `str(e)` of a `json.JSONDecodeError` (its exact text is
environment detail the theorems never rely on). -/
def jsonDecodeFailMsg : List Char := "JSONDecodeError".data

/-- What one connection observably does: the reply bytes written back, and
the callback invocations made. -/
structure HandleResult where
  reply : List Nat
  calls : List (List Char × Option (List Char))
deriving DecidableEq, Repr

/-- Embedding of `SubQueryHandler.handle` on the byte sequence the client
delivered before closing: fewer than 4 prefix bytes means return with no
reply and no callback call; otherwise read the length, read up to that many
body bytes, decode, call back, and frame the reply.  A callback error (or a
decode failure) becomes a framed `{"error": ...}` reply — the handler never
propagates it. -/
def handleConn (input : List Nat)
    (cb : List Char → Option (List Char) → Except (List Char) (List Char)) : HandleResult :=
  if input.length < 4 then ⟨[], []⟩
  else
    let msgLen := beDecode4 (input.take 4)
    let data := (input.drop 4).take msgLen
    match decodeRequest (data.map Char.ofNat) with
    | none => ⟨frameBytes ((jsonDumpsError jsonDecodeFailMsg).map Char.toNat), []⟩
    | some (p, cs) =>
        match cb p cs with
        | Except.ok r => ⟨frameBytes ((jsonDumpsResult r).map Char.toNat), [(p, cs)]⟩
        | Except.error m => ⟨frameBytes ((jsonDumpsError m).map Char.toNat), [(p, cs)]⟩

/-! ## Further definitions: termination statements and concrete inputs -/

/-- Statements that raise the termination signal whenever they are reached:
`FINAL` of a literal (its argument always evaluates) and `FINAL_VAR` (which
terminates whether or not the name resolves). -/
def alwaysTerminatesStmt : Stmt → Bool
  | Stmt.final (Expr.lit _) => true
  | Stmt.finalVar _ => true
  | _ => false

/-- A batch of two blocks: the first defines a plain variable, the second
reads it.  Probes whether plain variables cross block boundaries. -/
def c1Blocks : List (List Stmt) :=
  [[Stmt.assign "x" (Expr.lit "5")], [Stmt.printE (Expr.var "x")]]

/-- A block preceding the terminating block in a concrete batch. -/
def c2PrevBlocks : List (List Stmt) := [[Stmt.printE (Expr.lit "probe")]]

/-- Statements of the terminating block before the `FINAL` call. -/
def c2Pre : List Stmt := [Stmt.bufSet "r" (Expr.lit "1")]

/-- Statements of the terminating block after the `FINAL` call. -/
def c2Post : List Stmt := [Stmt.bufSet "bad" (Expr.lit "2")]

/-- Blocks of the batch after the terminating block. -/
def c2Rest : List (List Stmt) := [[Stmt.printE (Expr.lit "never")]]

/-- A response holding both the textual termination marker and an
executable block that itself calls `FINAL`. -/
def c3Response : List Char :=
  "FINAL_ANSWER: yes\n```repl\nFINAL(\"done\")\n```".data

/-- A response holding the termination marker only in lower case. -/
def c9Response : List Char := "final_answer: 42".data

/-- A well-formed callback request body, as the sandbox wrapper sends it. -/
def c7Body : List Nat :=
  "\x7b\"prompt\": \"P\", \"context_slice\": null\x7d".data.map Char.toNat

/-- A callback that answers with the prompt prefixed by `R`. -/
def c7Cb : List Char → Option (List Char) → Except (List Char) (List Char) :=
  fun p _ => Except.ok ('R' :: p)

/-- An outcome oracle that is rate-limited twice, then succeeds. -/
def c4Outcomes1 : Nat → CallOutcome Nat String := fun i =>
  match i with
  | 0 => CallOutcome.rateLimit "rl1"
  | 1 => CallOutcome.rateLimit "rl2"
  | _ => CallOutcome.success 7

/-- An outcome oracle that raises a non-rate-limit API error on every
attempt. -/
def c4Outcomes2 : Nat → CallOutcome Nat String := fun _ =>
  CallOutcome.apiError "server_error"

/-- An outcome oracle that raises a bad-request error (a non-transient
`anthropic.APIError` subclass) on every attempt. -/
def c5Outcomes : Nat → CallOutcome Unit String := fun _ =>
  CallOutcome.apiError "bad_request"

/-! ## Helper lemmas on the harness semantics -/

theorem runStmts_append_next (xs ys : List Stmt) (env : List (String × String)) (st : SState)
    (h : (runStmts xs env st).control = Control.next) :
    runStmts (xs ++ ys) env st =
      ⟨(runStmts ys (runStmts xs env st).env (runStmts xs env st).st).env,
       (runStmts ys (runStmts xs env st).env (runStmts xs env st).st).st,
       (runStmts xs env st).out ++
         (runStmts ys (runStmts xs env st).env (runStmts xs env st).st).out,
       (runStmts ys (runStmts xs env st).env (runStmts xs env st).st).control⟩ := by
  induction xs generalizing env st with
  | nil => simp [runStmts]
  | cons s xs ih =>
      cases s with
      | assign x e =>
          simp only [runStmts, List.cons_append] at h ⊢
          cases hev : evalExpr env st e with
          | ok v => simp only [hev] at h ⊢; exact ih ((x, v) :: env) st h
          | error m => simp [hev] at h
      | printE e =>
          simp only [runStmts, List.cons_append, List.append_eq] at h ⊢
          cases hev : evalExpr env st e with
          | ok v => simp only [hev] at h ⊢; rw [ih env st h]; simp
          | error m => simp [hev] at h
      | bufSet k e =>
          simp only [runStmts, List.cons_append] at h ⊢
          cases hev : evalExpr env st e with
          | ok v => simp only [hev] at h ⊢; exact ih env _ h
          | error m => simp [hev] at h
      | findAppend e =>
          simp only [runStmts, List.cons_append] at h ⊢
          cases hev : evalExpr env st e with
          | ok v => simp only [hev] at h ⊢; exact ih env _ h
          | error m => simp [hev] at h
      | final e =>
          simp only [runStmts, List.cons_append] at h ⊢
          cases hev : evalExpr env st e with
          | ok v => simp [hev] at h
          | error m => simp [hev] at h
      | finalVar x =>
          simp only [runStmts, List.cons_append] at h ⊢
          cases hl : env.lookup x with
          | some v => simp [hl] at h
          | none => simp [hl] at h

theorem runStmts_append_stop (xs ys : List Stmt) (env : List (String × String)) (st : SState)
    (h : (runStmts xs env st).control ≠ Control.next) :
    runStmts (xs ++ ys) env st = runStmts xs env st := by
  induction xs generalizing env st with
  | nil => simp [runStmts] at h
  | cons s xs ih =>
      cases s with
      | assign x e =>
          simp only [runStmts, List.cons_append] at h ⊢
          cases hev : evalExpr env st e with
          | ok v => simp only [hev] at h ⊢; exact ih ((x, v) :: env) st h
          | error m => simp [hev]
      | printE e =>
          simp only [runStmts, List.cons_append, List.append_eq] at h ⊢
          cases hev : evalExpr env st e with
          | ok v => simp only [hev] at h ⊢; rw [ih env st h]
          | error m => simp [hev]
      | bufSet k e =>
          simp only [runStmts, List.cons_append] at h ⊢
          cases hev : evalExpr env st e with
          | ok v => simp only [hev] at h ⊢; exact ih env _ h
          | error m => simp [hev]
      | findAppend e =>
          simp only [runStmts, List.cons_append] at h ⊢
          cases hev : evalExpr env st e with
          | ok v => simp only [hev] at h ⊢; exact ih env _ h
          | error m => simp [hev]
      | final e => rfl
      | finalVar x => rfl

/-- A statement with `alwaysTerminatesStmt` reaches the termination signal
immediately, ignoring anything that follows it. -/
theorem runStmts_alwaysTerm (t : Stmt) (post : List Stmt)
    (env : List (String × String)) (st : SState)
    (ht : alwaysTerminatesStmt t = true) :
    ∃ a, runStmts (t :: post) env st = ⟨env, st, [], Control.term a⟩ ∧
      runStmts [t] env st = ⟨env, st, [], Control.term a⟩ := by
  cases t with
  | final e =>
      cases e with
      | lit v => exact ⟨v, by simp [runStmts, evalExpr], by simp [runStmts, evalExpr]⟩
      | var x => simp [alwaysTerminatesStmt] at ht
      | bufGet k => simp [alwaysTerminatesStmt] at ht
  | finalVar x =>
      cases hl : env.lookup x with
      | some v => exact ⟨v, by simp [runStmts, hl], by simp [runStmts, hl]⟩
      | none => exact ⟨varNotFoundMsg x, by simp [runStmts, hl], by simp [runStmts, hl]⟩
  | assign x e => simp [alwaysTerminatesStmt] at ht
  | printE e => simp [alwaysTerminatesStmt] at ht
  | bufSet k e => simp [alwaysTerminatesStmt] at ht
  | findAppend e => simp [alwaysTerminatesStmt] at ht

theorem safeRun_term_drop (pre : List Stmt) (t : Stmt) (post : List Stmt) (st : SState)
    (ht : alwaysTerminatesStmt t = true)
    (hpre : ∀ st₂ : SState, (runStmts pre [] st₂).control.isExc = false) :
    safeRun (pre ++ t :: post) st = safeRun (pre ++ [t]) st ∧
      (safeRun (pre ++ [t]) st).terminated = true := by
  cases hc : (runStmts pre [] st).control with
  | next =>
      obtain ⟨a, ha1, ha2⟩ :=
        runStmts_alwaysTerm t post (runStmts pre [] st).env (runStmts pre [] st).st ht
      have e1 := runStmts_append_next pre (t :: post) [] st hc
      have e2 := runStmts_append_next pre [t] [] st hc
      rw [ha1] at e1
      rw [ha2] at e2
      constructor
      · simp [safeRun, e1, e2]
      · simp [safeRun, e2]
  | term a =>
      have e1 := runStmts_append_stop pre (t :: post) [] st (by simp [hc])
      have e2 := runStmts_append_stop pre [t] [] st (by simp [hc])
      constructor
      · simp [safeRun, e1, e2]
      · simp [safeRun, e2, hc]
  | exc m =>
      have := hpre st
      rw [hc] at this
      simp [Control.isExc] at this

theorem safeRun_finalAnswer (b : List Stmt) (st : SState)
    (h : (safeRun b st).terminated = true) : (safeRun b st).finalAnswer ≠ none := by
  cases hc : (runStmts b [] st).control with
  | next => simp [safeRun, hc] at h
  | term a => simp [safeRun, hc]
  | exc m => simp [safeRun, hc] at h

/-- Invariant of the batch loop: a terminated batch carries an answer. -/
theorem executeCodeBlocks_finalAnswer :
    ∀ (blocks : List (List Stmt)) (st : SState),
      (executeCodeBlocks blocks st).terminated = true →
      (executeCodeBlocks blocks st).finalAnswer ≠ none := by
  intro blocks
  induction blocks with
  | nil => intro st h; simp [executeCodeBlocks] at h
  | cons b bs ih =>
      intro st h
      unfold executeCodeBlocks at h ⊢
      by_cases hb : (safeRun b st).terminated
      · simpa [hb] using safeRun_finalAnswer b st hb
      · simp only [hb, if_false, Bool.false_eq_true] at h ⊢
        by_cases hr : (executeCodeBlocks bs (safeRun b st).state).terminated
        · simpa [hr] using ih (safeRun b st).state hr
        · simp [hr] at h

/-- A batch whose designated block reaches an always-terminating statement
behaves exactly like the batch truncated at that statement. -/
theorem executeCodeBlocks_term_mid
    (prevBlocks : List (List Stmt)) (pre : List Stmt) (t : Stmt) (post : List Stmt)
    (rest : List (List Stmt)) (st : SState)
    (ht : alwaysTerminatesStmt t = true)
    (hpre : ∀ st₂ : SState, (runStmts pre [] st₂).control.isExc = false) :
    executeCodeBlocks (prevBlocks ++ (pre ++ t :: post) :: rest) st =
      executeCodeBlocks (prevBlocks ++ [pre ++ [t]]) st ∧
    (executeCodeBlocks (prevBlocks ++ (pre ++ t :: post) :: rest) st).terminated = true := by
  induction prevBlocks generalizing st with
  | nil =>
      obtain ⟨hdrop, hterm⟩ := safeRun_term_drop pre t post st ht hpre
      simp only [List.nil_append]
      unfold executeCodeBlocks
      rw [hdrop]
      simp [hterm]
  | cons b prev ih =>
      simp only [List.cons_append]
      unfold executeCodeBlocks
      by_cases hb : (safeRun b st).terminated
      · simp [hb]
      · obtain ⟨ih1, ih2⟩ := ih (safeRun b st).state
        simp only [hb, if_false, Bool.false_eq_true]
        rw [ih1] at ih2 ⊢
        simp [ih2]

/-! ## Helper lemmas on the retry loop -/

/-- One-step unfolding of the retry loop, used to keep the inner recursive
occurrence folded during rewriting. -/
theorem retryGo_succ {α ε : Type} (outcomes : Nat → CallOutcome α ε) (base : ℚ)
    (attempt r : Nat) (le : Option ε) :
    retryGo outcomes base attempt (r + 1) le =
      match outcomes attempt with
      | CallOutcome.success a => ⟨Except.ok a, 1, []⟩
      | CallOutcome.rateLimit e =>
          ⟨(retryGo outcomes base (attempt + 1) r (some e)).result,
           (retryGo outcomes base (attempt + 1) r (some e)).calls + 1,
           base * 2 ^ attempt :: (retryGo outcomes base (attempt + 1) r (some e)).delays⟩
      | CallOutcome.apiError e =>
          if r = 0 then ⟨Except.error (some e), 1, []⟩
          else
            ⟨(retryGo outcomes base (attempt + 1) r (some e)).result,
             (retryGo outcomes base (attempt + 1) r (some e)).calls + 1,
             base * 2 ^ attempt :: (retryGo outcomes base (attempt + 1) r (some e)).delays⟩
      | CallOutcome.uncaught e => ⟨Except.error (some e), 1, []⟩ := rfl

theorem retryGo_all_fail {α ε : Type} (outcomes : Nat → CallOutcome α ε) (base : ℚ) :
    ∀ (r attempt : Nat) (le : Option ε), 0 < r →
      (∀ i, attempt ≤ i → i < attempt + r → retryableFailure (outcomes i) = true) →
      (retryGo outcomes base attempt r le).calls = r ∧
        (retryGo outcomes base attempt r le).result =
          Except.error (failErr (outcomes (attempt + r - 1))) := by
  intro r
  induction r with
  | zero => intro attempt le h; omega
  | succ r ih =>
      intro attempt le _ hfail
      have hcur : retryableFailure (outcomes attempt) = true :=
        hfail attempt (Nat.le_refl _) (by omega)
      cases hr : outcomes attempt with
      | success a => rw [hr] at hcur; simp [retryableFailure] at hcur
      | uncaught e => rw [hr] at hcur; simp [retryableFailure] at hcur
      | rateLimit e =>
          cases r with
          | zero => simp [retryGo_succ, retryGo, hr, failErr]
          | succ r2 =>
              obtain ⟨ih1, ih2⟩ := ih (attempt + 1) (some e) (Nat.succ_pos _)
                (fun i h1 h2 => hfail i (by omega) (by omega))
              rw [retryGo_succ, hr]
              dsimp only
              refine ⟨by rw [ih1], ?_⟩
              have hidx : attempt + 1 + (r2 + 1) - 1 = attempt + (r2 + 1 + 1) - 1 := by omega
              rw [ih2, hidx]
      | apiError e =>
          cases r with
          | zero => simp [retryGo_succ, retryGo, hr, failErr]
          | succ r2 =>
              obtain ⟨ih1, ih2⟩ := ih (attempt + 1) (some e) (Nat.succ_pos _)
                (fun i h1 h2 => hfail i (by omega) (by omega))
              rw [retryGo_succ, hr]
              dsimp only
              rw [if_neg (Nat.succ_ne_zero r2)]
              refine ⟨by rw [ih1], ?_⟩
              have hidx : attempt + 1 + (r2 + 1) - 1 = attempt + (r2 + 1 + 1) - 1 := by omega
              rw [ih2, hidx]

theorem retryGo_const_apiError {α ε : Type} (e : ε) (base : ℚ) :
    ∀ (r attempt : Nat) (le : Option ε), 0 < r →
      retryGo (fun _ => CallOutcome.apiError (α := α) e) base attempt r le =
        ⟨Except.error (some e), r, (List.range' attempt (r - 1)).map (fun i => base * 2 ^ i)⟩ := by
  intro r
  induction r with
  | zero => intro attempt le h; omega
  | succ r ih =>
      intro attempt le _
      cases r with
      | zero => simp [retryGo_succ, retryGo, List.range']
      | succ r2 =>
          have hrec := ih (attempt + 1) (some e) (Nat.succ_pos _)
          rw [retryGo_succ]
          dsimp only
          rw [if_neg (Nat.succ_ne_zero r2), hrec]
          simp [List.range']

/-! ## Helper lemma on the wire framing -/

theorem beDecode4_beBytes4 (n : Nat) (h : n < 2 ^ 32) : beDecode4 (beBytes4 n) = n := by
  simp only [beBytes4, beDecode4, List.foldl]
  omega

/-! ## The claims -/

/-- C1 (counterexample): the batch `c1Blocks` defines a plain variable `x`
in its first block and reads it in the second; under the source semantics
the second block fails with a `NameError` (each block runs in its own fresh
interpreter), while under the single-instance semantics the spec sentence
asserts, the read succeeds and prints the value.  The two semantics differ
at this concrete input, refuting the claimed cross-block visibility. -/
theorem c1_single_instance_visibility_cex :
    (executeCodeBlocks c1Blocks ⟨[], []⟩).output = ["STDERR: " ++ nameErrorMsg "x"] ∧
    (executeCodeBlocksSpecSingleInstance c1Blocks ⟨[], []⟩).output = ["5"] ∧
    executeCodeBlocks c1Blocks ⟨[], []⟩ ≠ executeCodeBlocksSpecSingleInstance c1Blocks ⟨[], []⟩ := by
  decide

/-- C1 (amended): `Execute` runs the blocks of a batch in order, but each
block runs in its own fresh interpreter/process instance; only the
serialized `buffers`/`findings` state threads from one block to the next.
A buffer written by an earlier block is visible to a later block of the
same batch, while a plain variable defined by an earlier block is not (the
later block fails with a `NameError`). -/
theorem c1_per_block_fresh_instance (x k v : String) (st : SState) :
    (executeCodeBlocks [[Stmt.bufSet k (Expr.lit v)], [Stmt.printE (Expr.bufGet k)]] st).output
        = [v] ∧
    (executeCodeBlocks [[Stmt.bufSet k (Expr.lit v)], [Stmt.printE (Expr.bufGet k)]] st).state
        = ⟨(k, v) :: st.buffers, st.findings⟩ ∧
    (executeCodeBlocks [[Stmt.assign x (Expr.lit v)], [Stmt.printE (Expr.var x)]] st).output
        = ["STDERR: " ++ nameErrorMsg x] := by
  refine ⟨?_, ?_, ?_⟩ <;>
    simp [executeCodeBlocks, safeRun, runStmts, evalExpr, List.lookup]

/-- C2: a batch whose executed code reaches a `FINAL`/`FINAL_VAR` call
terminates with a non-null answer; the statements after the call and all
later blocks of the batch are dropped entirely (the run equals the run of
the batch truncated at the call, so no mutation made after the call can
appear in the returned state). -/
theorem c2_final_short_circuits
    (prevBlocks : List (List Stmt)) (pre : List Stmt) (t : Stmt) (post : List Stmt)
    (rest : List (List Stmt)) (st : SState)
    (ht : alwaysTerminatesStmt t = true)
    (hpre : ∀ st₂ : SState, (runStmts pre [] st₂).control.isExc = false) :
    (∀ (blocks : List (List Stmt)) (st₂ : SState),
        (executeCodeBlocks blocks st₂).terminated = true →
        (executeCodeBlocks blocks st₂).finalAnswer ≠ none) ∧
    executeCodeBlocks (prevBlocks ++ (pre ++ t :: post) :: rest) st =
      executeCodeBlocks (prevBlocks ++ [pre ++ [t]]) st ∧
    (executeCodeBlocks (prevBlocks ++ (pre ++ t :: post) :: rest) st).terminated = true := by
  obtain ⟨h1, h2⟩ := executeCodeBlocks_term_mid prevBlocks pre t post rest st ht hpre
  exact ⟨executeCodeBlocks_finalAnswer, h1, h2⟩

theorem c2_final_short_circuits_witness :
    alwaysTerminatesStmt (Stmt.final (Expr.lit "done")) = true ∧
    executeCodeBlocks (c2PrevBlocks ++ (c2Pre ++ Stmt.final (Expr.lit "done") :: c2Post) :: c2Rest)
        ⟨[], []⟩ =
      executeCodeBlocks (c2PrevBlocks ++ [c2Pre ++ [Stmt.final (Expr.lit "done")]]) ⟨[], []⟩ ∧
    (executeCodeBlocks (c2PrevBlocks ++ (c2Pre ++ Stmt.final (Expr.lit "done") :: c2Post) :: c2Rest)
        ⟨[], []⟩).terminated = true ∧
    (executeCodeBlocks (c2PrevBlocks ++ (c2Pre ++ Stmt.final (Expr.lit "done") :: c2Post) :: c2Rest)
        ⟨[], []⟩).finalAnswer ≠ none :=
  have h := c2_final_short_circuits c2PrevBlocks c2Pre (Stmt.final (Expr.lit "done")) c2Post
    c2Rest ⟨[], []⟩ (by decide) (fun _ => rfl)
  ⟨by decide, h.2.1, h.2.2, h.1 _ _ h.2.2⟩

/-- C3: whenever the response text holds the textual termination marker,
the iteration takes the text-termination branch with the parsed structured
answer, and hands no code block to the sandbox — the marker check runs
before extraction and execution. -/
theorem c3_text_marker_priority (response : List Char)
    (h : containsSubstr finalAnswerLit response = true) :
    queryIterationStep response = IterStep.textTerminate (parseFinalAnswer response) ∧
    executedBlocks (queryIterationStep response) = [] := by
  simp [queryIterationStep, h, executedBlocks]

theorem c3_text_marker_priority_witness :
    containsSubstr finalAnswerLit c3Response = true ∧
    (queryIterationStep c3Response = IterStep.textTerminate (parseFinalAnswer c3Response) ∧
      executedBlocks (queryIterationStep c3Response) = []) ∧
    extractReplBlocks c3Response ≠ [] :=
  ⟨by decide, c3_text_marker_priority c3Response (by decide), by decide⟩

/-- C4: with `maxRetries = 3`, a rate-limit error on attempts 1 and 2
followed by success on attempt 3 makes exactly 3 underlying calls and
returns the successful result (after two backoff delays); and whenever all
`maxRetries` attempts fail with errors the handlers catch, exactly
`maxRetries` calls are made and the last error propagates. -/
theorem c4_retry_counts {α ε : Type}
    (outcomes : Nat → CallOutcome α ε) (base : ℚ) (e1 e2 : ε) (a : α)
    (h0 : outcomes 0 = CallOutcome.rateLimit e1)
    (h1 : outcomes 1 = CallOutcome.rateLimit e2)
    (h2 : outcomes 2 = CallOutcome.success a) :
    callWithRetry 3 base outcomes =
      ⟨Except.ok a, 3, [base * 2 ^ 0, base * 2 ^ 1]⟩ ∧
    ∀ (outcomes2 : Nat → CallOutcome α ε) (n : Nat), 0 < n →
      (∀ i, i < n → retryableFailure (outcomes2 i) = true) →
      (callWithRetry n base outcomes2).calls = n ∧
        (callWithRetry n base outcomes2).result =
          Except.error (failErr (outcomes2 (n - 1))) := by
  constructor
  · simp [callWithRetry, retryGo, h0, h1, h2]
  · intro outcomes2 n hn hfail
    have h := retryGo_all_fail outcomes2 base n 0 none hn
      (fun i _ hi => hfail i (by omega))
    simpa [callWithRetry] using h

theorem c4_retry_counts_witness :
    c4Outcomes1 0 = CallOutcome.rateLimit "rl1" ∧
    c4Outcomes1 1 = CallOutcome.rateLimit "rl2" ∧
    c4Outcomes1 2 = CallOutcome.success 7 ∧
    callWithRetry 3 1 c4Outcomes1 = ⟨Except.ok 7, 3, [1 * 2 ^ 0, 1 * 2 ^ 1]⟩ ∧
    (callWithRetry 2 1 c4Outcomes2).calls = 2 ∧
    (callWithRetry 2 1 c4Outcomes2).result = Except.error (failErr (c4Outcomes2 (2 - 1))) :=
  have h := c4_retry_counts c4Outcomes1 1 "rl1" "rl2" 7 rfl rfl rfl
  have h2 := h.2 c4Outcomes2 2 (by decide) (fun i _ => rfl)
  ⟨rfl, rfl, rfl, h.1, h2.1, h2.2⟩

/-- C5 (counterexample): a bad-request error — a non-transient
`anthropic.APIError` — raised on every attempt with `maxRetries = 3` is NOT
propagated after one call: the wrapper makes 3 underlying calls with 2
backoff delays before propagating it, because the `except anthropic.APIError`
clause catches bad request and authentication errors and retries them. -/
theorem c5_nontransient_immediate_cex :
    (callWithRetry 3 1 c5Outcomes).calls = 3 ∧
    (callWithRetry 3 1 c5Outcomes).calls ≠ 1 ∧
    (callWithRetry 3 1 c5Outcomes).delays.length = 2 ∧
    (callWithRetry 3 1 c5Outcomes).result = Except.error (some "bad_request") := by
  refine ⟨rfl, by decide, rfl, rfl⟩

/-- C5 (amended): a non-transient API error (bad request, authentication —
subclasses of the SDK `APIError`) raised on every attempt is retried with
exponential backoff like any other API error; only the final attempt
propagates it, after exactly `maxRetries` underlying calls and
`maxRetries - 1` backoff delays `base * 2 ^ attempt`. -/
theorem c5_api_error_retried_to_last_attempt {α ε : Type} (n : Nat) (e : ε) (base : ℚ)
    (h : 0 < n) :
    callWithRetry n base (fun _ => CallOutcome.apiError (α := α) e) =
      ⟨Except.error (some e), n, (List.range (n - 1)).map (fun i => base * 2 ^ i)⟩ := by
  rw [callWithRetry, retryGo_const_apiError e base n 0 none h, List.range_eq_range']

theorem c5_api_error_retried_to_last_attempt_witness :
    0 < 3 ∧
    callWithRetry 3 1 (fun _ => CallOutcome.apiError (α := Unit) (ε := String) "auth_error") =
      ⟨Except.error (some "auth_error"), 3, (List.range 2).map (fun i => (1 : ℚ) * 2 ^ i)⟩ :=
  ⟨by decide, c5_api_error_retried_to_last_attempt 3 "auth_error" 1 (by decide)⟩

/-- C6: output longer than the 20,000-character maximum is fed back as
exactly the 20,000-character prefix followed by the truncation notice
holding the original character count; output of at most 20,000 characters
passes through unchanged. -/
theorem c6_output_truncation (out : List Char) :
    (maxOutputChars < out.length →
        truncateOutput out = out.take maxOutputChars ++ truncNotice out.length) ∧
    (out.length ≤ maxOutputChars → truncateOutput out = out) := by
  constructor
  · intro h
    simp [truncateOutput, h]
  · intro h
    simp only [truncateOutput, if_neg (Nat.not_lt.2 h)]
    exact List.take_of_length_le h

theorem c6_output_truncation_witness :
    maxOutputChars < (List.replicate 20001 'a').length ∧
    truncateOutput (List.replicate 20001 'a') =
      (List.replicate 20001 'a').take maxOutputChars ++
        truncNotice (List.replicate 20001 'a').length ∧
    truncateOutput "ok".data = "ok".data :=
  ⟨by simp only [List.length_replicate]; decide,
    (c6_output_truncation _).1 (by simp only [List.length_replicate]; decide),
    (c6_output_truncation "ok".data).2 (by decide)⟩

/-- C7: a connection delivering a well-formed length-prefixed JSON callback
request gets exactly one callback invocation on its decoded fields, and a
reply under the same framing: `json.dumps` of `result` holding exactly the
callback return value when it returns, of `error` holding the message when
it raises — and the two reply bodies can never coincide.  The raising case
still produces a framed reply, so a callback error never escapes the
handler. -/
theorem c7_callback_roundtrip (body : List Nat) (p : List Char) (cs : Option (List Char))
    (cb : List Char → Option (List Char) → Except (List Char) (List Char))
    (hlen : body.length < 2 ^ 32)
    (hdec : decodeRequest (body.map Char.ofNat) = some (p, cs)) :
    (handleConn (frameBytes body) cb).calls = [(p, cs)] ∧
    (∀ r, cb p cs = Except.ok r →
        (handleConn (frameBytes body) cb).reply =
          frameBytes ((jsonDumpsResult r).map Char.toNat)) ∧
    (∀ m, cb p cs = Except.error m →
        (handleConn (frameBytes body) cb).reply =
          frameBytes ((jsonDumpsError m).map Char.toNat)) ∧
    (∀ r m, jsonDumpsResult r ≠ jsonDumpsError m) := by
  have h4 : (beBytes4 body.length).length = 4 := rfl
  have hguard : ¬ (frameBytes body).length < 4 := by
    simp [frameBytes, List.length_append, h4]
  have htake : (frameBytes body).take 4 = beBytes4 body.length := by
    rw [frameBytes, ← h4, List.take_left]
  have hdrop : (frameBytes body).drop 4 = body := by
    rw [frameBytes, ← h4, List.drop_left]
  have hkey : handleConn (frameBytes body) cb =
      (match cb p cs with
       | Except.ok r => ⟨frameBytes ((jsonDumpsResult r).map Char.toNat), [(p, cs)]⟩
       | Except.error m => ⟨frameBytes ((jsonDumpsError m).map Char.toNat), [(p, cs)]⟩) := by
    simp only [handleConn, hguard, if_false, htake, hdrop,
      beDecode4_beBytes4 _ hlen, List.take_length, hdec]
  refine ⟨?_, ?_, ?_, ?_⟩
  · rw [hkey]; cases cb p cs <;> rfl
  · intro r hr; rw [hkey, hr]
  · intro m hm; rw [hkey, hm]
  · intro r m heq
    unfold jsonDumpsResult jsonDumpsError at heq
    injection heq with e1 rest1
    injection rest1 with e2 rest2
    injection rest2 with e3 rest3
    exact absurd e3 (by decide)

theorem c7_callback_roundtrip_witness :
    c7Body.length < 2 ^ 32 ∧
    decodeRequest (c7Body.map Char.ofNat) = some ("P".data, none) ∧
    (handleConn (frameBytes c7Body) c7Cb).calls = [("P".data, none)] ∧
    (handleConn (frameBytes c7Body) c7Cb).reply =
      frameBytes ((jsonDumpsResult "RP".data).map Char.toNat) :=
  have h := c7_callback_roundtrip c7Body "P".data none c7Cb (by decide) (by decide)
  ⟨by decide, by decide, h.1, h.2.1 "RP".data rfl⟩

/-- C8: parsing the response `"FINAL_ANSWER: $1.8M\nCONFIDENCE: high"`
yields the answer `$1.8M`, the confidence `high`, and no evidence. -/
theorem c8_parse_final_answer_example :
    parseFinalAnswer "FINAL_ANSWER: $1.8M\nCONFIDENCE: high".data =
      { answer := "$1.8M".data, evidence := none,
        confidence := "high".data, verification := none } := by
  decide

/-- C9: the loop check for the textual termination marker is an exact,
case-sensitive substring test, so a response without the exact marker never
takes the text-termination branch — even though the field parser, compiled
with `re.IGNORECASE`, extracts the answer from a lower-case
`final_answer:` field. -/
theorem c9_marker_check_case_sensitive (response : List Char)
    (_hlow : containsSubstr (finalAnswerLit.map asciiLower) (response.map asciiLower) = true)
    (hexact : containsSubstr finalAnswerLit response = false) :
    (∀ p, queryIterationStep response ≠ IterStep.textTerminate p) ∧
    searchAnswer c9Response = some "42".data ∧
    containsSubstr finalAnswerLit c9Response = false := by
  refine ⟨?_, by decide, by decide⟩
  intro p
  simp only [queryIterationStep, hexact, Bool.false_eq_true, if_false]
  cases hext : extractReplBlocks response <;> simp

theorem c9_marker_check_case_sensitive_witness :
    containsSubstr (finalAnswerLit.map asciiLower) (c9Response.map asciiLower) = true ∧
    containsSubstr finalAnswerLit c9Response = false ∧
    queryIterationStep c9Response ≠ IterStep.textTerminate (parseFinalAnswer c9Response) ∧
    searchAnswer c9Response = some "42".data :=
  have h := c9_marker_check_case_sensitive c9Response (by decide) (by decide)
  ⟨by decide, by decide, h.1 (parseFinalAnswer c9Response), h.2.1⟩

/-- C10: a connection that closes after delivering fewer than 4 bytes of
length prefix gets no reply at all, and the callback is never invoked. -/
theorem c10_short_prefix_silent (input : List Nat)
    (cb : List Char → Option (List Char) → Except (List Char) (List Char))
    (h : input.length < 4) :
    handleConn input cb = ⟨[], []⟩ := by
  simp [handleConn, h]

theorem c10_short_prefix_silent_witness :
    ([0, 1, 2] : List Nat).length < 4 ∧
    handleConn [0, 1, 2] (fun _ _ => Except.ok []) = ⟨[], []⟩ :=
  ⟨by decide, c10_short_prefix_silent [0, 1, 2] (fun _ _ => Except.ok []) (by decide)⟩

end RLM
